import Mathlib

/-!
Verification of the HubSpot resource-orchestration layer
(`src/hubspot/__init__.py` together with the constants of
`src/hubspot/settings.py`).

Strings are embedded as `List Char` (Python strings are sequences of code
points, and all data handled here is plain text).  Python dictionaries are
embedded as association lists in insertion order (a Python `dict` preserves
insertion order and has unique keys); values are embedded by the `Val`
inductive, with `Val.vNone` standing for Python `None`.  Generators are
embedded as the lists of the items they yield; the unbounded `while` loop of
`stages_timing` is embedded with explicit fuel, `none` meaning that the loop
has not reached its exit condition within the given fuel.  The external
paged-fetch primitive `fetch_data` lives in the repository's `helpers`
module, which is not part of the sources under verification; it is modelled
from the spec as an oracle argument.
-/

/-- Convert a Lean string literal to the `List Char` embedding. -/
def toL (s : String) : List Char := s.toList

/-- Embedded Python values: `None`, booleans, numbers and strings cover
every value the orchestration layer itself constructs or inspects. -/
inductive Val where
  | vNone : Val
  | vBool : Bool → Val
  | vNat : Nat → Val
  | vStr : List Char → Val
deriving DecidableEq

/-- A Python dict in insertion order: keys are strings, values are `Val`. -/
abbrev PyDict := List (List Char × Val)

/-- `d[k]` / `d.get(k)` as an optional lookup (first matching key). -/
def lookupVal (d : PyDict) (k : List Char) : Option Val :=
  (d.find? (fun kv => kv.1 = k)).map (fun kv => kv.2)

/-- `d[k] = v`: replace the value of an existing key in place (Python keeps
the key's position), otherwise append the new pair. -/
def setKey (d : PyDict) (k : List Char) (v : Val) : PyDict :=
  if d.any (fun kv => kv.1 = k) then
    d.map (fun kv => if kv.1 = k then (k, v) else kv)
  else d ++ [(k, v)]

/-- `d.update(ctx)`: apply `setKey` for every pair of `ctx` in order. -/
def updateRecord (d : PyDict) (ctx : PyDict) : PyDict :=
  ctx.foldl (fun acc kv => setKey acc kv.1 kv.2) d

/-- Python `",".join(xs)`. -/
def joinComma : List (List Char) → List Char
  | [] => []
  | s :: rest =>
    match rest with
    | [] => s
    | _ :: _ => s ++ ',' :: joinComma rest

/-- Python `s.split(",")`: split on every comma; always returns at least one
(possibly empty) piece. -/
def splitComma : List Char → List (List Char)
  | [] => [[]]
  | c :: rest =>
    match splitComma rest with
    | [] => [[c]]
    | t :: ts => if c = ',' then [] :: t :: ts else (c :: t) :: ts

/-- Python `s.split(sep)` for a non-empty separator, with explicit fuel
(each step consumes at least one character, so `s.length + 1` fuel always
suffices; the fuel-exhausted branch is unreachable from `pySplit`). -/
def pySplitF (sep : List Char) : Nat → List Char → List (List Char)
  | 0, s => [s]
  | Nat.succ fuel, s =>
    if sep.isEmpty then [s]
    else if sep.isPrefixOf s then
      [] :: pySplitF sep fuel (s.drop sep.length)
    else
      match s with
      | [] => [[]]
      | c :: rest =>
        match pySplitF sep fuel rest with
        | [] => [[c]]
        | t :: ts => (c :: t) :: ts

/-- Python `s.split(sep)`: left-to-right, non-overlapping occurrences. -/
def pySplit (sep s : List Char) : List (List Char) :=
  pySplitF sep (s.length + 1) s

/-- Python `str(v)` for the embedded values. -/
def pyStr : Val → List Char
  | Val.vNone => toL "None"
  | Val.vBool true => toL "True"
  | Val.vBool false => toL "False"
  | Val.vNat n => toL (Nat.repr n)
  | Val.vStr s => s

/- Constants from `src/hubspot/settings.py`. -/

/-- `settings.STAGE_PROPERTY_PREFIX`. -/
def STAGE_PROPERTY_PREFIX : List Char := toL "hs_date_entered_"

/-- `settings.MAX_PROPS_LENGTH`. -/
def MAX_PROPS_LENGTH : Nat := 2000

/-- `settings.SOFT_DELETE_KEY`. -/
def SOFT_DELETE_KEY : List Char := toL "is_deleted"

/-- `settings.ARCHIVED_PARAM`. -/
def ARCHIVED_PARAM : PyDict := [(toL "archived", Val.vBool true)]

/-- `settings.ALL`, the "all properties" sentinel `[{"properties": "All"}]`. -/
def ALL : List PyDict := [[(toL "properties", Val.vStr (toL "All"))]]

/- `fetch_props` and its error paths (`src/hubspot/__init__.py` lines
344-370) together with `extract_properties_list` (lines 65-67). -/

/-- The Python exceptions `fetch_props` can raise: the `TypeError` of
iterating `None` (or of sorting/joining non-string entries), and the
`ValueError` whose message interpolates the limit, the 200-character
preview `props[:200]` and the actual length `len(props)`. -/
structure TooLongInfo where
  limit : Nat
  preview : List Char
  actual : Nat
deriving DecidableEq

inductive PyErr where
  | typeError : PyErr
  | valueError : TooLongInfo → PyErr
deriving DecidableEq

/-- `extract_properties_list(props)`: `[prop.get("name") for prop in props]`
(`dict.get` yields `None` when the key is absent). -/
def extract_properties_list (props : List PyDict) : List Val :=
  props.map (fun prop => (lookupVal prop (toL "name")).getD Val.vNone)

/-- `v` as a Python string, when it is one. -/
def asStr : Val → Option (List Char)
  | Val.vStr s => some s
  | _ => none

/-- All entries as Python strings, `none` as soon as one is not (Python
`sorted`/`",".join` raise `TypeError` on a non-string entry). -/
def allStrs : List Val → Option (List (List Char))
  | [] => some []
  | v :: vs =>
    match asStr v, allStrs vs with
    | some s, some rest => some (s :: rest)
    | _, _ => none

/-- The property-string construction of `fetch_props` (lines 350-360),
before the length check: resolve the `ALL` sentinel against the catalog or
flatten the explicit list (`None` raises `TypeError` when iterated), union
in the catalog names without the `"hs_"` prefix when requested, then
`",".join(sorted(list(set(props))))` — `sorted`/`join` raise `TypeError`
unless every entry is a string. -/
def resolved_props (catalog : List (List Char)) (props : Option (List PyDict))
    (include_custom_props : Bool) : Except PyErr (List Char) :=
  match (if props = some ALL then Except.ok (catalog.map Val.vStr)
         else match props with
           | none => Except.error PyErr.typeError
           | some ps => Except.ok (extract_properties_list ps)) with
  | Except.error e => Except.error e
  | Except.ok base =>
    let withCustom := if include_custom_props then
        base ++ (catalog.filter (fun p => !((toL "hs_").isPrefixOf p))).map Val.vStr
      else base
    match allStrs (withCustom.dedup) with
    | none => Except.error PyErr.typeError
    | some strs =>
      Except.ok (joinComma (List.insertionSort (fun a b => a ≤ b) strs))

/-- `fetch_props(object_type, api_key, props, include_custom_props)`: the
catalog argument stands for `list(_get_property_names(api_key, object_type))`
of the external helper. -/
def fetch_props (catalog : List (List Char)) (props : Option (List PyDict))
    (include_custom_props : Bool) : Except PyErr (List Char) :=
  match resolved_props catalog props include_custom_props with
  | Except.error e => Except.error e
  | Except.ok s =>
    if s.length > MAX_PROPS_LENGTH then
      Except.error (PyErr.valueError
        { limit := MAX_PROPS_LENGTH, preview := s.take 200, actual := s.length })
    else Except.ok s

/- The record-fetcher adapter `fetch_data_for_properties`
(`src/hubspot/__init__.py` lines 70-83). -/

/-- Modelled from the spec: the external paged-fetch primitive
`fetch_data` (defined in the repository's `helpers` module, which is not
among the sources under verification) returns the pages the API yields for
the given request parameters and, when a `context` mapping is supplied,
tags every record of every page with the context's key/value pairs
(spec §4.3: records of the archived partition are tagged with
provenance = deleted, carried as the `is_deleted` field).  The pages
themselves are supplied by the `pages` argument, an oracle standing for
the network. -/
def fetch_data (pages : List (List PyDict)) (context : Option PyDict) :
    List (List PyDict) :=
  match context with
  | none => pages
  | some ctx => pages.map (fun page => page.map (fun r => updateRecord r ctx))

/-- The request parameters `{"properties": props, "limit": 100}`. -/
def base_params (props : List Char) : PyDict :=
  [(toL "properties", Val.vStr props), (toL "limit", Val.vNat 100)]

/-- `fetch_data_for_properties(props, api_key, object_type, soft_delete)`:
the oracle maps the request parameter dict to the pages the API returns
(the endpoint and api key of the source are fixed throughout one call and
are absorbed into the oracle). -/
def fetch_data_for_properties (oracle : PyDict → List (List PyDict))
    (props : List Char) (soft_delete : Bool) : List (List PyDict) :=
  let params := base_params props
  let context : Option PyDict :=
    if soft_delete then some [(SOFT_DELETE_KEY, Val.vBool false)] else none
  fetch_data (oracle params) context ++
    (if soft_delete then
      fetch_data (oracle (updateRecord params ARCHIVED_PARAM))
        (some [(SOFT_DELETE_KEY, Val.vBool true)])
     else [])

/- The stage-timing pivot `pivot_stages_properties`
(`src/hubspot/__init__.py` lines 190-202). -/

/-- The body of the `for record in data` loop of `pivot_stages_properties`:
drop the `None`-valued entries, skip the record when `id_prop` is absent,
pop the id, and emit one output dict per remaining entry whose key starts
with ` property_prefix` (Python `e[k]` on the split result is index 1 of
`k.split(property_prefix)`, which exists because the key starts with the
prefix). -/
def pivot_record ( property_prefix id_prop : List Char) (record : PyDict) :
    List PyDict :=
  let record_not_null := record.filter (fun kv => kv.2 ≠ Val.vNone)
  match lookupVal record_not_null id_prop with
  | none => []
  | some id_val =>
    let rest := record_not_null.filter (fun kv => kv.1 ≠ id_prop)
    rest.filterMap (fun kv =>
      if ( property_prefix).isPrefixOf kv.1 then
        some [(id_prop, id_val), ( property_prefix, kv.2),
              (toL "stage", Val.vStr ((pySplit property_prefix kv.1).getD 1 []))]
      else none)

/-- `pivot_stages_properties(data, property_prefix, id_prop)`. -/
def pivot_stages_properties (data : List PyDict)
    ( property_prefix id_prop : List Char) : List PyDict :=
  data.flatMap (pivot_record property_prefix id_prop)

/- The chunking loop of `stages_timing`
(`src/hubspot/__init__.py` lines 213-219). -/

/-- One iteration of the chunking loop: the chunk `props_part` computed for
cursor position `idx` — when fewer than `MAX_PROPS_LENGTH` characters
remain, `",".join(props[idx: idx + MAX_PROPS_LENGTH].split(",")[:-1])`,
otherwise the raw window `props[idx: idx + MAX_PROPS_LENGTH]`. -/
def chunkStep (props : List Char) (idx : Nat) : List Char :=
  if props.length - idx < MAX_PROPS_LENGTH then
    joinComma ((splitComma ((props.drop idx).take MAX_PROPS_LENGTH)).dropLast)
  else (props.drop idx).take MAX_PROPS_LENGTH

/-- The `while idx < len(props)` loop, with fuel: each iteration emits
`chunkStep props idx` and advances `idx` by its length (`idx +=
len(props_part)`); `some chunks` when the loop exits within the fuel,
`none` otherwise. -/
def chunkLoop : Nat → List Char → Nat → Option (List (List Char))
  | 0, _, _ => none
  | Nat.succ fuel, props, idx =>
    if idx < props.length then
      match chunkLoop fuel props (idx + (chunkStep props idx).length) with
      | none => none
      | some rest => some (chunkStep props idx :: rest)
    else some []

/-- `stages_timing(object_type, api_key, soft_delete)`: `catalog` stands for
`list(_get_property_names(api_key, object_type))` of the external helper and
`oracle` for the paged-fetch primitive keyed by the request parameters
(which contain the chunk as the `properties` entry).  The generator yields
one pivoted page per (chunk, fetched page) pair; `none` when the chunking
loop does not terminate within the fuel. -/
def stages_timing (catalog : List (List Char))
    (oracle : PyDict → List (List PyDict)) (soft_delete : Bool)
    (fuel : Nat) : Option (List (List PyDict)) :=
  let date_entered_properties :=
    catalog.filter (fun prop => STAGE_PROPERTY_PREFIX.isPrefixOf prop)
  let props := joinComma date_entered_properties
  (chunkLoop fuel props 0).map (fun chunks =>
    chunks.flatMap (fun props_part =>
      (fetch_data_for_properties oracle props_part soft_delete).map
        (fun page => pivot_stages_properties page STAGE_PROPERTY_PREFIX (toL "id"))))

/- The event stream router `hubspot_events_for_objects`
(`src/hubspot/__init__.py` lines 373-426). -/

/-- The generator `get_web_analytics_events`: one paged fetch per object id,
in input-list order (`oracle` abstracts the events endpoint for the fixed
object type, cursor window and api key of one invocation). -/
def get_web_analytics_events (object_ids : List (List Char))
    (oracle : List Char → List (List PyDict)) : List (List PyDict) :=
  object_ids.flatMap oracle

/-- The dynamic table name `lambda e: name + "_" + str(e["eventType"])` with
`name = object_type + "_events"` (Python `e["eventType"]` raises `KeyError`
when absent; the theorems below only apply it to records carrying the
field). -/
def event_table_name (object_type : List Char) (e : PyDict) : List Char :=
  (object_type ++ toL "_events") ++ toL "_" ++
    pyStr ((lookupVal e (toL "eventType")).getD Val.vNone)

/-- Modelled from the spec: the pipeline routes every record of the
resource to the stream named by the table-name function (spec §4.5 dynamic
fan-out); `routed_records` is the sub-sequence of records, in yield order,
that the stream named `stream` receives. -/
def routed_records (object_type : List Char) (object_ids : List (List Char))
    (oracle : List Char → List (List PyDict)) (stream : List Char) :
    List PyDict :=
  ((get_web_analytics_events object_ids oracle).flatten).filter
    (fun e => event_table_name object_type e = stream)

/-- The separator occurs nowhere in `s`. -/
def noOccur (sep s : List Char) : Prop :=
  ∀ i < s.length, sep.isPrefixOf (s.drop i) = false

instance (sep s : List Char) : Decidable (noOccur sep s) := by
  unfold noOccur
  infer_instance

/-- The null-dropping pass of the pivot: keep the entries whose value is not
`None`. -/
def dropNulls (record : PyDict) : PyDict :=
  record.filter (fun kv => kv.2 ≠ Val.vNone)

/- Concrete inputs used by witnesses and counterexamples. -/

/-- An oversized comma-joined property string: three names of 1000
characters each, total length 3002. -/
def props3 : List Char :=
  List.replicate 1000 'a' ++ [','] ++ List.replicate 1000 'b' ++ [','] ++
    List.replicate 1000 'c'

/-- A single stage property name, joined length 36 (< 2000). -/
def c2name : List Char := toL "hs_date_entered_appointmentscheduled"

/-- A record whose stage-property name contains the stage prefix twice. -/
def c7bad : PyDict :=
  [(toL "id", Val.vStr (toL "1")),
   (toL "hs_date_entered_hs_date_entered_x", Val.vStr (toL "v"))]

/-- The spec's pivot example record. -/
def rec7 : PyDict :=
  [(toL "id", Val.vStr (toL "1")),
   (toL "hs_date_entered_open", Val.vStr (toL "2024-01-01")),
   (toL "hs_date_entered_closed", Val.vNone),
   (toL "other", Val.vNone)]

/-- Synthetic event records of types click and view for two object ids. -/
def evA1 : PyDict :=
  [(toL "id", Val.vStr (toL "a1")), (toL "eventType", Val.vStr (toL "click"))]

def evA2 : PyDict :=
  [(toL "id", Val.vStr (toL "a2")), (toL "eventType", Val.vStr (toL "view"))]

def evB1 : PyDict :=
  [(toL "id", Val.vStr (toL "b1")), (toL "eventType", Val.vStr (toL "click"))]

def evB2 : PyDict :=
  [(toL "id", Val.vStr (toL "b2")), (toL "eventType", Val.vStr (toL "view"))]

/-- A synthetic events endpoint: one page per object id. -/
def evOracle : List Char → List (List PyDict) := fun i =>
  if i = toL "A" then [[evA1, evA2]]
  else if i = toL "B" then [[evB1, evB2]]
  else []

/- Helper lemmas. -/

/-- `splitComma` never returns the empty list (Python `split` always yields
at least one piece). -/
theorem splitComma_ne_nil : ∀ s : List Char, splitComma s ≠ []
  | [] => by simp [splitComma]
  | c :: rest => by
    cases h : splitComma rest with
    | nil => simp [splitComma, h]
    | cons t ts => by_cases hc : c = ',' <;> simp [splitComma, h, hc]

/-- `splitComma` of a comma-free string is the single piece. -/
theorem splitComma_no_comma : ∀ {s : List Char}, (∀ c ∈ s, c ≠ ',') →
    splitComma s = [s]
  | [], _ => rfl
  | c :: rest, h => by
    have hr := splitComma_no_comma (fun x hx => h x (List.mem_cons_of_mem _ hx))
    have hc : c ≠ ',' := h c (List.mem_cons_self _ _)
    simp [splitComma, hr, hc]

/-- `splitComma` past a comma-free head piece. -/
theorem splitComma_append_comma : ∀ {s t : List Char}, (∀ c ∈ s, c ≠ ',') →
    splitComma (s ++ ',' :: t) = s :: splitComma t
  | [], t, _ => by
    cases h : splitComma t with
    | nil => exact absurd h (splitComma_ne_nil t)
    | cons u us => simp [splitComma, h]
  | c :: s, t, h => by
    have hr := splitComma_append_comma (s := s) (t := t)
      (fun x hx => h x (List.mem_cons_of_mem _ hx))
    have hc : c ≠ ',' := h c (List.mem_cons_self _ _)
    have key : splitComma (c :: (s ++ ',' :: t)) =
        match splitComma (s ++ ',' :: t) with
        | [] => [[c]]
        | u :: us => if c = ',' then [] :: u :: us else (c :: u) :: us := rfl
    rw [List.cons_append, key, hr]
    exact if_neg hc

/-- Once an iteration accepts an empty chunk while the cursor is still short
of the end, the loop never exits, whatever the fuel. -/
theorem chunkLoop_stuck {p : List Char} {i : Nat} (hi : i < p.length)
    (hs : chunkStep p i = []) : ∀ fuel, chunkLoop fuel p i = none := by
  intro fuel
  induction fuel with
  | zero => rfl
  | succ f ih => simp [chunkLoop, hi, hs, ih]

/-- A non-empty separator is never a prefix of a string beyond its end. -/
theorem isPrefixOf_drop_ge {sep s : List Char} (hsep : sep ≠ []) {i : Nat}
    (hi : s.length ≤ i) : sep.isPrefixOf (s.drop i) = false := by
  have hnil : s.drop i = [] := List.drop_eq_nil_of_le hi
  rw [hnil]
  cases sep with
  | nil => exact absurd rfl hsep
  | cons a l => rfl

theorem noOccur_all {sep s : List Char} (hsep : sep ≠ []) (h : noOccur sep s) :
    ∀ i, sep.isPrefixOf (s.drop i) = false := by
  intro i
  by_cases hi : i < s.length
  · exact h i hi
  · exact isPrefixOf_drop_ge hsep (Nat.le_of_not_lt hi)

/-- `pySplitF` on a string avoiding the separator is the identity piece,
given enough fuel. -/
theorem pySplitF_no_occur {sep : List Char} (hsep : sep ≠ []) :
    ∀ {fuel : Nat} {s : List Char},
      (∀ i, sep.isPrefixOf (s.drop i) = false) → s.length < fuel →
      pySplitF sep fuel s = [s] := by
  intro fuel
  induction fuel with
  | zero => intro s _ hl; exact absurd hl (Nat.not_lt_zero _)
  | succ f ih =>
    intro s h hl
    have hne : sep.isEmpty = false := by
      cases sep with
      | nil => exact absurd rfl hsep
      | cons a l => rfl
    have h0 : sep.isPrefixOf s = false := by simpa using h 0
    cases s with
    | nil => simp [pySplitF, hne, h0]
    | cons c rest =>
      have hr : ∀ i, sep.isPrefixOf (rest.drop i) = false := fun i => by
        simpa [List.drop_succ_cons] using h (i + 1)
      have hrec := ih hr (Nat.lt_of_succ_lt_succ (by simpa using hl))
      simp [pySplitF, hne, h0, hrec]

/-- Unfolding `pySplitF` at successor fuel. -/
theorem pySplitF_succ (sep : List Char) (fuel : Nat) (s : List Char) :
    pySplitF sep (fuel + 1) s =
      (if sep.isEmpty then [s]
       else if sep.isPrefixOf s then
         [] :: pySplitF sep fuel (s.drop sep.length)
       else
         match s with
         | [] => [[]]
         | c :: rest =>
           match pySplitF sep fuel rest with
           | [] => [[c]]
           | t :: ts => (c :: t) :: ts) := rfl

/-- Python `(sep ++ t).split(sep)` is `["", t]` when `sep` does not occur
in `t`. -/
theorem pySplit_prefix_no_occur {sep t : List Char} (hsep : sep ≠ [])
    (h : noOccur sep t) : pySplit sep (sep ++ t) = [[], t] := by
  have hne : sep.isEmpty = false := by
    cases sep with
    | nil => exact absurd rfl hsep
    | cons a l => rfl
  have hpre : sep.isPrefixOf (sep ++ t) = true := by
    rw [List.isPrefixOf_iff_prefix]
    exact List.prefix_append sep t
  have hdrop : (sep ++ t).drop sep.length = t := List.drop_left sep t
  have hlen : t.length < (sep ++ t).length := by
    have : 0 < sep.length := List.length_pos.mpr hsep
    simp only [List.length_append]
    omega
  unfold pySplit
  rw [pySplitF_succ, if_neg (by simp [hne]), if_pos hpre, hdrop,
    pySplitF_no_occur hsep (noOccur_all hsep h) hlen]

/-- `filterMap` with an if-guard is `filter` then `map`. -/
theorem filterMap_guard {α β : Type} (p : α → Bool) (f : α → β) :
    ∀ l : List α,
      l.filterMap (fun x => if p x then some (f x) else none) =
        (l.filter p).map f
  | [] => rfl
  | x :: l => by
    by_cases h : p x <;>
      simp [List.filterMap_cons, List.filter_cons, h, filterMap_guard p f l]

/-- Unfolding `find?` at a cons cell. -/
theorem find?_cons_eq {α : Type} (p : α → Bool) (a : α) (l : List α) :
    (a :: l).find? p = (match p a with | true => some a | false => l.find? p) :=
  rfl

/-- `find?` over the in-place replacement of `setKey`. -/
theorem find?_map_setKey (k : List Char) (v : Val) : ∀ d : PyDict,
    ((d.map (fun kv => if kv.1 = k then (k, v) else kv)).find?
        (fun kv => kv.1 = k)) =
      if d.any (fun kv => kv.1 = k) then some (k, v) else none
  | [] => rfl
  | c :: d => by
    by_cases hc : c.1 = k
    · simp only [List.map_cons, if_pos hc]
      rw [find?_cons_eq]
      have h1 : decide (((k, v) : List Char × Val).1 = k) = true := by simp
      have h2 : decide (c.1 = k) = true := by simp [hc]
      rw [h1]
      simp only [List.any_cons, h2, Bool.true_or]
      rfl
    · simp only [List.map_cons, if_neg hc]
      rw [find?_cons_eq]
      have h2 : decide (c.1 = k) = false := by simp [hc]
      rw [h2]
      simp only [List.any_cons, h2, Bool.false_or]
      exact find?_map_setKey k v d

/-- Looking up the key just set by `setKey` yields the new value. -/
theorem lookup_setKey (d : PyDict) (k : List Char) (v : Val) :
    lookupVal (setKey d k v) k = some v := by
  unfold setKey lookupVal
  by_cases h : d.any (fun kv => kv.1 = k)
  · rw [if_pos h, find?_map_setKey, if_pos h]
    rfl
  · rw [if_neg h, List.find?_append]
    have hnone : d.find? (fun kv => decide (kv.1 = k)) = none := by
      rw [List.find?_eq_none]
      intro x hx
      intro hxk
      exact h (List.any_eq_true.mpr ⟨x, hx, hxk⟩)
    simp [hnone]

/-- `dict.update` with a single pair is `setKey`. -/
theorem updateRecord_single (d : PyDict) (k : List Char) (v : Val) :
    updateRecord d [(k, v)] = setKey d k v := rfl

/-- `dedup` commutes with the injective embedding `Val.vStr`. -/
theorem dedup_map_vStr : ∀ X : List (List Char),
    (X.map Val.vStr).dedup = (X.dedup).map Val.vStr
  | [] => rfl
  | x :: X => by
    by_cases h : x ∈ X
    · rw [List.map_cons, List.dedup_cons_of_mem (List.mem_map_of_mem _ h),
        List.dedup_cons_of_mem h, dedup_map_vStr X]
    · have h2 : Val.vStr x ∉ X.map Val.vStr := by
        intro hc
        obtain ⟨y, hy, he⟩ := List.mem_map.mp hc
        cases he
        exact h hy
      rw [List.map_cons, List.dedup_cons_of_not_mem h2,
        List.dedup_cons_of_not_mem h, List.map_cons, dedup_map_vStr X]

/-- `allStrs` recovers the strings under the `Val.vStr` embedding. -/
theorem allStrs_map : ∀ X : List (List Char),
    allStrs (X.map Val.vStr) = some X
  | [] => rfl
  | x :: X => by simp [List.map_cons, allStrs, asStr, allStrs_map X]

/-- Flattening an explicit property list whose descriptors all carry a
string-valued `name` key. -/
theorem extract_names : ∀ ps : List PyDict,
    (∀ d ∈ ps, ∃ n, lookupVal d (toL "name") = some (Val.vStr n)) →
    ∃ N : List (List Char), extract_properties_list ps = N.map Val.vStr ∧
      ∀ a, a ∈ N ↔ ∃ d ∈ ps, lookupVal d (toL "name") = some (Val.vStr a)
  | [], _ => ⟨[], rfl, by
      intro a
      constructor
      · intro ha
        exact absurd ha (List.not_mem_nil a)
      · rintro ⟨d, hd, -⟩
        exact absurd hd (List.not_mem_nil d)⟩
  | d :: ps, h => by
    obtain ⟨n, hn⟩ := h d (List.mem_cons_self _ _)
    obtain ⟨N, hN, hmem⟩ :=
      extract_names ps (fun d' hd' => h d' (List.mem_cons_of_mem _ hd'))
    refine ⟨n :: N, ?_, ?_⟩
    · simp only [extract_properties_list, List.map_cons] at hN ⊢
      rw [hn, hN]
      rfl
    · intro a
      simp only [List.mem_cons, hmem, hn]
      constructor
      · rintro (rfl | ⟨d', hd', hd'n⟩)
        · exact ⟨d, Or.inl rfl, hn⟩
        · exact ⟨d', Or.inr hd', hd'n⟩
      · rintro ⟨d', hd' | hd', hd'n⟩
        · rw [hd'] at hd'n
          rw [hn] at hd'n
          cases hd'n
          exact Or.inl rfl
        · exact Or.inr ⟨d', hd', hd'n⟩

/-- A property list whose descriptors all carry a `name` key is never the
`ALL` sentinel (whose only descriptor carries `properties` instead). -/
theorem props_with_names_ne_ALL {ps : List PyDict}
    (h : ∀ d ∈ ps, ∃ n, lookupVal d (toL "name") = some (Val.vStr n)) :
    ps ≠ ALL := by
  intro he
  subst he
  obtain ⟨n, hn⟩ := h [(toL "properties", Val.vStr (toL "All"))]
    (List.mem_cons_self _ _)
  rw [show lookupVal [(toL "properties", Val.vStr (toL "All"))] (toL "name") =
      none from rfl] at hn
  exact Option.noConfusion hn

/-- The string built by `resolved_props` for an explicit (non-`ALL`)
property list whose flattened names are `N`. -/
theorem resolved_props_explicit (catalog : List (List Char)) (ps : List PyDict)
    (inc : Bool) (N : List (List Char))
    (hex : extract_properties_list ps = N.map Val.vStr) (hALL : ps ≠ ALL) :
    resolved_props catalog (some ps) inc =
      Except.ok (joinComma (List.insertionSort (fun a b => a ≤ b)
        ((N ++ (if inc then
            catalog.filter (fun p => !((toL "hs_").isPrefixOf p))
          else [])).dedup))) := by
  have hne : ¬ (some ps = some ALL) := by simpa using hALL
  simp only [resolved_props, if_neg hne]
  rw [hex]
  have hif : (if inc = true then
        List.map Val.vStr N ++
          List.map Val.vStr (catalog.filter (fun p => !((toL "hs_").isPrefixOf p)))
      else List.map Val.vStr N) =
      List.map Val.vStr (N ++ (if inc = true then
        catalog.filter (fun p => !((toL "hs_").isPrefixOf p)) else [])) := by
    cases inc <;> simp
  rw [hif, dedup_map_vStr, allStrs_map]

/-- The pivot of a single record. -/
theorem pivot_singleton ( pp idp : List Char) (r : PyDict) :
    pivot_stages_properties [r] pp idp = pivot_record pp idp r := by
  simp [pivot_stages_properties]

/-- The pivot's null-dropping pass is idempotent. -/
theorem pivot_record_dropNulls ( pp idp : List Char) (r : PyDict) :
    pivot_record pp idp (dropNulls r) = pivot_record pp idp r := by
  unfold pivot_record dropNulls
  rw [List.filter_filter]
  simp only [Bool.and_self]

/-- Cancelling a common prefix of an append. -/
theorem append_left_cancel_iff (s t u : List Char) :
    (s ++ t = s ++ u) ↔ t = u :=
  ⟨List.append_cancel_left, fun h => by rw [h]⟩

/- Computations on the oversized three-name string `props3`. -/

theorem props3_length : props3.length = 3002 := by
  unfold props3
  rw [List.length_append, List.length_append, List.length_append,
    List.length_append, List.length_replicate, List.length_replicate,
    List.length_replicate]
  simp

theorem no_comma_replicate (n : Nat) (c : Char) (hc : c ≠ ',') :
    ∀ x ∈ List.replicate n c, x ≠ ',' := by
  intro x hx
  rw [List.mem_replicate] at hx
  rw [hx.2]
  exact hc

theorem splitComma_props3 :
    splitComma props3 = [List.replicate 1000 'a', List.replicate 1000 'b',
      List.replicate 1000 'c'] := by
  unfold props3
  simp only [List.append_assoc]
  rw [List.singleton_append,
    splitComma_append_comma (no_comma_replicate 1000 'a' (by decide)),
    List.singleton_append,
    splitComma_append_comma (no_comma_replicate 1000 'b' (by decide)),
    splitComma_no_comma (no_comma_replicate 1000 'c' (by decide))]

theorem take_2000_props3 :
    props3.take 2000 =
      List.replicate 1000 'a' ++ [','] ++ List.replicate 999 'b' := by
  unfold props3
  simp only [List.append_assoc]
  rw [List.take_append_eq_append_take, List.take_replicate,
    List.length_replicate, show (2000 : Nat) ⊓ 1000 = 1000 from rfl,
    show (2000 : Nat) - 1000 = 1000 from rfl,
    List.take_append_eq_append_take,
    List.take_of_length_le (l := ([','] : List Char)) (by norm_num),
    List.length_singleton, show (1000 : Nat) - 1 = 999 from rfl,
    List.take_append_eq_append_take, List.take_replicate,
    List.length_replicate, show (999 : Nat) ⊓ 1000 = 999 from rfl,
    show (999 : Nat) - 1000 = 0 from rfl, List.take_zero, List.append_nil]

theorem drop_2000_props3 :
    props3.drop 2000 = 'b' :: ',' :: List.replicate 1000 'c' := by
  unfold props3
  simp only [List.append_assoc]
  rw [List.drop_append_eq_append_drop, List.drop_replicate,
    List.length_replicate, show (1000 : Nat) - 2000 = 0 from rfl,
    List.replicate_zero, List.nil_append,
    show (2000 : Nat) - 1000 = 1000 from rfl,
    List.drop_append_eq_append_drop,
    show List.drop 1000 ([','] : List Char) = [] from
      List.drop_eq_nil_of_le (by norm_num),
    List.nil_append, List.length_singleton,
    show (1000 : Nat) - 1 = 999 from rfl,
    List.drop_append_eq_append_drop, List.drop_replicate,
    List.length_replicate, show (1000 : Nat) - 999 = 1 from rfl,
    show (999 : Nat) - 1000 = 0 from rfl, List.drop_zero,
    List.replicate_one, List.singleton_append, List.singleton_append]

theorem drop_2001_props3 :
    props3.drop 2001 = ',' :: List.replicate 1000 'c' := by
  unfold props3
  simp only [List.append_assoc]
  rw [List.drop_append_eq_append_drop, List.drop_replicate,
    List.length_replicate, show (1000 : Nat) - 2001 = 0 from rfl,
    List.replicate_zero, List.nil_append,
    show (2001 : Nat) - 1000 = 1001 from rfl,
    List.drop_append_eq_append_drop,
    show List.drop 1001 ([','] : List Char) = [] from
      List.drop_eq_nil_of_le (by norm_num),
    List.nil_append, List.length_singleton,
    show (1001 : Nat) - 1 = 1000 from rfl,
    List.drop_append_eq_append_drop, List.drop_replicate,
    List.length_replicate, show (1000 : Nat) - 1000 = 0 from rfl,
    List.replicate_zero, List.nil_append, List.drop_zero,
    List.singleton_append]

theorem chunkStep_props3_zero :
    chunkStep props3 0 =
      List.replicate 1000 'a' ++ [','] ++ List.replicate 999 'b' := by
  unfold chunkStep MAX_PROPS_LENGTH
  rw [props3_length, if_neg (by norm_num), List.drop_zero]
  exact take_2000_props3

theorem chunkStep_props3_2000 : chunkStep props3 2000 = ['b'] := by
  unfold chunkStep MAX_PROPS_LENGTH
  rw [props3_length, if_pos (by norm_num), drop_2000_props3]
  rw [List.take_of_length_le (by
    rw [List.length_cons, List.length_cons, List.length_replicate]
    norm_num)]
  show joinComma
    (splitComma (['b'] ++ ',' :: List.replicate 1000 'c')).dropLast = ['b']
  rw [splitComma_append_comma (by decide),
    splitComma_no_comma (no_comma_replicate 1000 'c' (by decide))]
  rfl

theorem chunkStep_props3_2001 : chunkStep props3 2001 = [] := by
  unfold chunkStep MAX_PROPS_LENGTH
  rw [props3_length, if_pos (by norm_num), drop_2001_props3]
  rw [List.take_of_length_le (by
    rw [List.length_cons, List.length_replicate]
    norm_num)]
  show joinComma
    (splitComma (([] : List Char) ++ ',' :: List.replicate 1000 'c')).dropLast = []
  rw [splitComma_append_comma (fun x hx => absurd hx (List.not_mem_nil x)),
    splitComma_no_comma (no_comma_replicate 1000 'c' (by decide))]
  rfl

/-- Unfolding `fetch_props` once the property string is resolved. -/
theorem fetch_props_of_resolved {catalog : List (List Char)}
    {props : Option (List PyDict)} {inc : Bool} {s : List Char}
    (hs : resolved_props catalog props inc = Except.ok s) :
    fetch_props catalog props inc =
      if s.length > MAX_PROPS_LENGTH then
        Except.error (PyErr.valueError
          { limit := MAX_PROPS_LENGTH, preview := s.take 200,
            actual := s.length })
      else Except.ok s := by
  unfold fetch_props
  rw [hs]

/-- Claim C9: calling `fetch_props` with `props = None` (absent explicit
list, not the `ALL` sentinel) fails — Python raises `TypeError` when
`extract_properties_list` iterates `None` — before any property string is
produced, for every catalog and custom-props flag. -/
theorem c9_fetch_props_none_fails (catalog : List (List Char)) (inc : Bool) :
    fetch_props catalog none inc = Except.error PyErr.typeError := rfl

/-- Claim C3: given a resolved property string `s`, `fetch_props` raises
the too-long `ValueError` — carrying the limit 2000, the 200-character
preview and the actual length — exactly when `s` is longer than 2000
characters; it returns `s` exactly when `s` fits, and any returned string
is at most 2000 characters long. -/
theorem c3_fetch_props_length_gate (catalog : List (List Char))
    (props : Option (List PyDict)) (inc : Bool) :
    (∀ s, resolved_props catalog props inc = Except.ok s →
      ((fetch_props catalog props inc = Except.error (PyErr.valueError
          { limit := MAX_PROPS_LENGTH, preview := s.take 200,
            actual := s.length }) ↔ MAX_PROPS_LENGTH < s.length)
        ∧ (fetch_props catalog props inc = Except.ok s ↔
            s.length ≤ MAX_PROPS_LENGTH)))
    ∧ (∀ t, fetch_props catalog props inc = Except.ok t →
        t.length ≤ MAX_PROPS_LENGTH) := by
  constructor
  · intro s hs
    have hf := fetch_props_of_resolved hs
    by_cases hl : s.length > MAX_PROPS_LENGTH
    · rw [if_pos hl] at hf
      refine ⟨⟨fun _ => hl, fun _ => hf⟩, ?_, ?_⟩
      · intro hok
        rw [hf] at hok
        exact absurd hok (fun h => Except.noConfusion h)
      · intro hle
        exact absurd hl (by omega)
    · rw [if_neg hl] at hf
      have hle : s.length ≤ MAX_PROPS_LENGTH := Nat.le_of_not_lt hl
      refine ⟨⟨?_, ?_⟩, fun _ => hle, fun _ => hf⟩
      · intro he
        rw [hf] at he
        exact absurd he (fun h => Except.noConfusion h)
      · intro hlt
        exact absurd hlt (by omega)
  · intro t ht
    cases hr : resolved_props catalog props inc with
    | error e =>
      unfold fetch_props at ht
      rw [hr] at ht
      exact Except.noConfusion ht
    | ok s =>
      have hf := fetch_props_of_resolved hr
      rw [hf] at ht
      by_cases hl : s.length > MAX_PROPS_LENGTH
      · rw [if_pos hl] at ht
        exact Except.noConfusion ht
      · rw [if_neg hl] at ht
        injection ht with hst
        rw [← hst]
        exact Nat.le_of_not_lt hl

/-- Claim C3 witness: for the explicit one-property list the resolved
string is `"amount"`, which fits the 2000-character budget and is
returned. -/
theorem c3_fetch_props_length_gate_witness :
    fetch_props [] (some [[(toL "name", Val.vStr (toL "amount"))]]) false =
      Except.ok (toL "amount") :=
  ((c3_fetch_props_length_gate []
      (some [[(toL "name", Val.vStr (toL "amount"))]]) false).1
    (toL "amount") rfl).2.mpr (by decide)

set_option synthInstance.maxHeartbeats 1000000 in
/-- The string returned by `fetch_props` for an explicit property list is
the comma-join of a sorted, duplicate-free list whose members are exactly
the explicit names together with (when requested) the catalog names
without the `"hs_"` prefix. -/
theorem fetch_props_explicit_char (catalog : List (List Char))
    (ps : List PyDict) (inc : Bool) (t : List Char)
    (hnames : ∀ d ∈ ps, ∃ n, lookupVal d (toL "name") = some (Val.vStr n))
    (hok : fetch_props catalog (some ps) inc = Except.ok t) :
    ∃ l : List (List Char), t = joinComma l ∧
      List.Sorted (fun a b => a ≤ b) l ∧ l.Nodup ∧
      ∀ a, a ∈ l ↔
        ((∃ d ∈ ps, lookupVal d (toL "name") = some (Val.vStr a)) ∨
          (inc = true ∧ a ∈ catalog ∧ ¬ (toL "hs_").isPrefixOf a)) := by
  obtain ⟨N, hex, hmem⟩ := extract_names ps hnames
  have hALL := props_with_names_ne_ALL hnames
  have hres := resolved_props_explicit catalog ps inc N hex hALL
  have hf := fetch_props_of_resolved hres
  refine ⟨List.insertionSort (fun a b => a ≤ b)
    ((N ++ (if inc = true then
        catalog.filter (fun p => !((toL "hs_").isPrefixOf p))
      else [])).dedup),
    ?_, List.sorted_insertionSort _ _,
    (List.perm_insertionSort _ _).nodup_iff.mpr (List.nodup_dedup _), ?_⟩
  · rw [hf] at hok
    by_cases hlen : (joinComma (List.insertionSort (fun a b => a ≤ b)
        ((N ++ (if inc = true then
            catalog.filter (fun p => !((toL "hs_").isPrefixOf p))
          else [])).dedup))).length > MAX_PROPS_LENGTH
    · rw [if_pos hlen] at hok
      exact absurd hok (fun h => Except.noConfusion h)
    · rw [if_neg hlen] at hok
      injection hok with h
      exact h.symm
  · intro a
    rw [(List.perm_insertionSort _ _).mem_iff, List.mem_dedup,
      List.mem_append, hmem]
    cases inc with
    | false => simp
    | true => simp [List.mem_filter, ← List.isPrefixOf_iff_prefix]

/-- Claim C4: for an explicit property list whose descriptors carry string
names, the string `fetch_props` returns is the comma-join of the sorted,
duplicate-free union of the explicit names with, when
`include_custom_props` holds, exactly the catalog names not starting with
`"hs_"`; in particular, the explicit list `[{"name": "amount"}]` with
`include_custom_props = False` resolves to exactly `"amount"` for every
catalog. -/
theorem c4_fetch_props_resolution :
    (∀ (catalog : List (List Char)) (ps : List PyDict) (inc : Bool)
        (t : List Char),
      (∀ d ∈ ps, ∃ n, lookupVal d (toL "name") = some (Val.vStr n)) →
      fetch_props catalog (some ps) inc = Except.ok t →
      ∃ l : List (List Char), t = joinComma l ∧
        List.Sorted (fun a b => a ≤ b) l ∧ l.Nodup ∧
        ∀ a, a ∈ l ↔
          ((∃ d ∈ ps, lookupVal d (toL "name") = some (Val.vStr a)) ∨
            (inc = true ∧ a ∈ catalog ∧ ¬ (toL "hs_").isPrefixOf a)))
    ∧ ∀ catalog : List (List Char),
        fetch_props catalog (some [[(toL "name", Val.vStr (toL "amount"))]])
          false = Except.ok (toL "amount") := by
  constructor
  · exact fetch_props_explicit_char
  · intro catalog
    have hres : resolved_props catalog
        (some [[(toL "name", Val.vStr (toL "amount"))]]) false =
        Except.ok (toL "amount") := rfl
    rw [fetch_props_of_resolved hres, if_neg (by decide)]

/-- Claim C4 witness: explicit name `amount`, catalog
`["created", "hs_x"]`, custom properties included — the returned string is
`"amount,created"` and the characterization holds there. -/
theorem c4_fetch_props_resolution_witness :
    ∃ l : List (List Char), toL "amount,created" = joinComma l ∧
      List.Sorted (fun a b => a ≤ b) l ∧ l.Nodup ∧
      ∀ a, a ∈ l ↔
        ((∃ d ∈ [[(toL "name", Val.vStr (toL "amount"))]],
            lookupVal d (toL "name") = some (Val.vStr a)) ∨
          (true = true ∧ a ∈ [toL "created", toL "hs_x"] ∧
            ¬ (toL "hs_").isPrefixOf a)) :=
  c4_fetch_props_resolution.1 [toL "created", toL "hs_x"]
    [[(toL "name", Val.vStr (toL "amount"))]] true (toL "amount,created")
    (by
      intro d hd
      rw [List.mem_singleton] at hd
      subst hd
      exact ⟨toL "amount", rfl⟩)
    rfl

/-- Claim C10: when the property catalog contains no name starting with
`"hs_date_entered_"`, the joined stage-property string is empty, so the
chunking loop of `stages_timing` exits before its first iteration (plan
`some []` with a single unit of fuel) and `stages_timing` yields no output
and issues no record fetch — the result is `some []` for every oracle. -/
theorem c10_stages_timing_no_stage_props (catalog : List (List Char))
    (h : ∀ p ∈ catalog, ¬ STAGE_PROPERTY_PREFIX.isPrefixOf p) :
    ∀ (oracle : PyDict → List (List PyDict)) (soft_delete : Bool)
      (fuel : Nat),
      chunkLoop (fuel + 1)
          (joinComma (catalog.filter
            (fun prop => STAGE_PROPERTY_PREFIX.isPrefixOf prop))) 0 = some []
      ∧ stages_timing catalog oracle soft_delete (fuel + 1) = some [] := by
  intro oracle sd fuel
  have hfil : catalog.filter
      (fun prop => STAGE_PROPERTY_PREFIX.isPrefixOf prop) = [] := by
    rw [List.filter_eq_nil_iff]
    intro a ha
    simpa using h a ha
  constructor
  · rw [hfil]
    rfl
  · simp only [stages_timing, hfil]
    rfl

/-- Claim C10 witness: a catalog with only non-stage names. -/
theorem c10_stages_timing_no_stage_props_witness :
    chunkLoop 1 (joinComma ([toL "id", toL "amount"].filter
        (fun prop => STAGE_PROPERTY_PREFIX.isPrefixOf prop))) 0 = some []
    ∧ stages_timing [toL "id", toL "amount"]
        (fun params => [[[(toL "x", Val.vNone)]]]) true 1 = some [] :=
  c10_stages_timing_no_stage_props [toL "id", toL "amount"] (by decide)
    (fun params => [[[(toL "x", Val.vNone)]]]) true 0

/-- Claim C5: with `soft_delete` on, `fetch_data_for_properties` emits the
whole live partition first and the whole archived partition strictly after
it; every archived record carries `is_deleted = True` and every live
record carries `is_deleted = False` (never the deleted marker). -/
theorem c5_soft_delete_partitions (oracle : PyDict → List (List PyDict))
    (props : List Char) :
    fetch_data_for_properties oracle props true =
        fetch_data (oracle (base_params props))
          (some [(SOFT_DELETE_KEY, Val.vBool false)]) ++
        fetch_data (oracle (updateRecord (base_params props) ARCHIVED_PARAM))
          (some [(SOFT_DELETE_KEY, Val.vBool true)])
      ∧ (∀ page ∈ fetch_data
            (oracle (updateRecord (base_params props) ARCHIVED_PARAM))
            (some [(SOFT_DELETE_KEY, Val.vBool true)]),
          ∀ r ∈ page, lookupVal r SOFT_DELETE_KEY = some (Val.vBool true))
      ∧ (∀ page ∈ fetch_data (oracle (base_params props))
            (some [(SOFT_DELETE_KEY, Val.vBool false)]),
          ∀ r ∈ page, lookupVal r SOFT_DELETE_KEY = some (Val.vBool false)) := by
  refine ⟨rfl, ?_, ?_⟩
  · intro page hpage r hr
    simp only [fetch_data] at hpage
    obtain ⟨page0, hp0, rfl⟩ := List.mem_map.mp hpage
    obtain ⟨r0, hr0, rfl⟩ := List.mem_map.mp hr
    rw [updateRecord_single]
    exact lookup_setKey r0 SOFT_DELETE_KEY (Val.vBool true)
  · intro page hpage r hr
    simp only [fetch_data] at hpage
    obtain ⟨page0, hp0, rfl⟩ := List.mem_map.mp hpage
    obtain ⟨r0, hr0, rfl⟩ := List.mem_map.mp hr
    rw [updateRecord_single]
    exact lookup_setKey r0 SOFT_DELETE_KEY (Val.vBool false)

/-- Claim C5 witness: one archived record, tagged with the deleted
marker. -/
theorem c5_soft_delete_partitions_witness :
    lookupVal (updateRecord [(toL "a", Val.vStr (toL "x"))]
        [(SOFT_DELETE_KEY, Val.vBool true)]) SOFT_DELETE_KEY =
      some (Val.vBool true) :=
  (c5_soft_delete_partitions
      (fun params => [[[(toL "a", Val.vStr (toL "x"))]]]) (toL "p")).2.1
    [updateRecord [(toL "a", Val.vStr (toL "x"))]
      [(SOFT_DELETE_KEY, Val.vBool true)]]
    (by decide)
    (updateRecord [(toL "a", Val.vStr (toL "x"))]
      [(SOFT_DELETE_KEY, Val.vBool true)])
    (by decide)

/-- The dynamic table name, written with the flattened
`<objectType>_events_` head. -/
theorem event_table_name_eq (objT : List Char) (e : PyDict) :
    event_table_name objT e =
      objT ++ toL "_events_" ++
        pyStr ((lookupVal e (toL "eventType")).getD Val.vNone) := by
  simp only [event_table_name, List.append_assoc]
  rfl

/-- Claim C6: the event router fetches ids in input order (all of id A's
records precede all of id B's), routes each record to the stream
`<objectType>_events_<eventType>` computed per record, and the stream for
event type `et` receives exactly the records whose `eventType` is `et`. -/
theorem c6_event_routing (object_type A B : List Char)
    (oracle : List Char → List (List PyDict)) :
    (get_web_analytics_events [A, B] oracle).flatten =
        (oracle A).flatten ++ (oracle B).flatten
      ∧ (∀ e ∈ (get_web_analytics_events [A, B] oracle).flatten,
          event_table_name object_type e =
            object_type ++ toL "_events_" ++
              pyStr ((lookupVal e (toL "eventType")).getD Val.vNone))
      ∧ ∀ et : List Char,
          (∀ e ∈ (get_web_analytics_events [A, B] oracle).flatten,
            ∃ s, lookupVal e (toL "eventType") = some (Val.vStr s)) →
          routed_records object_type [A, B] oracle
              (object_type ++ toL "_events_" ++ et) =
            ((get_web_analytics_events [A, B] oracle).flatten).filter
              (fun e => (lookupVal e (toL "eventType")).getD Val.vNone =
                Val.vStr et) := by
  refine ⟨?_, ?_, ?_⟩
  · simp [get_web_analytics_events]
  · intro e _
    exact event_table_name_eq object_type e
  · intro et hall
    unfold routed_records
    apply List.filter_congr
    intro e he
    obtain ⟨s, hs⟩ := hall e he
    rw [event_table_name_eq, hs]
    simp only [Option.getD_some, pyStr]
    rw [decide_eq_decide]
    constructor
    · intro h
      exact congrArg Val.vStr (List.append_cancel_left h)
    · intro h
      injection h with h'
      rw [h']

/-- Claim C6 witness: two synthetic pages with click and view events for
ids A and B; the click stream receives exactly the click records, id A's
first. -/
theorem c6_event_routing_witness :
    routed_records (toL "t") [toL "A", toL "B"] evOracle
        (toL "t" ++ toL "_events_" ++ toL "click") = [evA1, evB1] :=
  ((c6_event_routing (toL "t") (toL "A") (toL "B") evOracle).2.2
    (toL "click")
    (by
      intro e he
      have hl : (get_web_analytics_events [toL "A", toL "B"]
          evOracle).flatten = [evA1, evA2, evB1, evB2] := rfl
      rw [hl] at he
      simp only [List.mem_cons, List.not_mem_nil, or_false] at he
      rcases he with rfl | rfl | rfl | rfl
      · exact ⟨toL "click", rfl⟩
      · exact ⟨toL "view", rfl⟩
      · exact ⟨toL "click", rfl⟩
      · exact ⟨toL "view", rfl⟩)).trans (by decide)

/-- `pivot_record` on a record with no id among the non-null entries. -/
theorem pivot_record_of_no_id { pp idp : List Char} {r : PyDict}
    (hl : lookupVal (r.filter (fun kv => kv.2 ≠ Val.vNone)) idp = none) :
    pivot_record pp idp r = [] := by
  simp only [pivot_record]
  rw [hl]

/-- `pivot_record` on a record whose non-null entries carry the id. -/
theorem pivot_record_of_id { pp idp : List Char} {r : PyDict} {idv : Val}
    (hl : lookupVal (r.filter (fun kv => kv.2 ≠ Val.vNone)) idp = some idv) :
    pivot_record pp idp r =
      ((r.filter (fun kv => kv.2 ≠ Val.vNone)).filter
          (fun kv => kv.1 ≠ idp)).filterMap (fun kv =>
        if ( pp).isPrefixOf kv.1 then
          some [(idp, idv), ( pp, kv.2),
            (toL "stage", Val.vStr ((pySplit pp kv.1).getD 1 []))]
        else none) := by
  simp only [pivot_record]
  rw [hl]

/-- Claim C8: the Stage-Timing Pivot drops null-valued properties first
(pre-dropping them changes nothing), discards entirely any record whose id
field is absent after null-dropping, and a record with zero stage-prefixed
properties after null-dropping contributes zero output rows. -/
theorem c8_pivot_null_and_id_policy :
    (∀ data : List PyDict,
      pivot_stages_properties (data.map dropNulls) STAGE_PROPERTY_PREFIX
          (toL "id") =
        pivot_stages_properties data STAGE_PROPERTY_PREFIX (toL "id"))
    ∧ (∀ (d1 d2 : List PyDict) (r : PyDict),
        lookupVal (dropNulls r) (toL "id") = none →
        pivot_stages_properties (d1 ++ r :: d2) STAGE_PROPERTY_PREFIX
            (toL "id") =
          pivot_stages_properties (d1 ++ d2) STAGE_PROPERTY_PREFIX
            (toL "id"))
    ∧ (∀ r : PyDict,
        (∀ kv ∈ dropNulls r, ¬ STAGE_PROPERTY_PREFIX.isPrefixOf kv.1) →
        pivot_stages_properties [r] STAGE_PROPERTY_PREFIX (toL "id") =
          []) := by
  refine ⟨?_, ?_, ?_⟩
  · intro data
    unfold pivot_stages_properties
    rw [List.flatMap_map,
      funext (fun r => pivot_record_dropNulls STAGE_PROPERTY_PREFIX
        (toL "id") r)]
  · intro d1 d2 r hid
    unfold dropNulls at hid
    unfold pivot_stages_properties
    rw [List.flatMap_append, List.flatMap_cons, List.flatMap_append,
      pivot_record_of_no_id hid, List.nil_append]
  · intro r hno
    unfold dropNulls at hno
    rw [pivot_singleton]
    cases hl : lookupVal (r.filter (fun kv => kv.2 ≠ Val.vNone))
        (toL "id") with
    | none => exact pivot_record_of_no_id hl
    | some idv =>
      rw [pivot_record_of_id hl, List.filterMap_eq_nil_iff]
      intro kv hkv
      exact if_neg (hno kv (List.mem_filter.mp hkv).1)

/-- Claim C8 witness: the three policies at concrete records — a record
with a null id is discarded, a record with no stage-prefixed property
yields no row, and pre-dropping nulls changes nothing. -/
theorem c8_pivot_null_and_id_policy_witness :
    pivot_stages_properties
        ([[(toL "other", Val.vNone), (toL "id", Val.vStr (toL "1"))]].map
          dropNulls) STAGE_PROPERTY_PREFIX (toL "id") =
      pivot_stages_properties
        [[(toL "other", Val.vNone), (toL "id", Val.vStr (toL "1"))]]
        STAGE_PROPERTY_PREFIX (toL "id")
    ∧ pivot_stages_properties ([] ++ [(toL "id", Val.vNone)] :: [])
        STAGE_PROPERTY_PREFIX (toL "id") =
      pivot_stages_properties ([] ++ []) STAGE_PROPERTY_PREFIX (toL "id")
    ∧ pivot_stages_properties [[(toL "x", Val.vStr (toL "v")),
        (toL "id", Val.vStr (toL "1"))]] STAGE_PROPERTY_PREFIX
        (toL "id") = [] :=
  ⟨c8_pivot_null_and_id_policy.1
      [[(toL "other", Val.vNone), (toL "id", Val.vStr (toL "1"))]],
    c8_pivot_null_and_id_policy.2.1 [] [] [(toL "id", Val.vNone)]
      (by decide),
    c8_pivot_null_and_id_policy.2.2
      [(toL "x", Val.vStr (toL "v")), (toL "id", Val.vStr (toL "1"))]
      (by decide)⟩

/-- Claim C7 (amended): for a record that retains its id after
null-dropping, the pivot emits exactly one output record per remaining
stage-prefixed property, of the form
`{id, <prefix>: value, stage: <suffix>}`, where — as the counterexample
forces — the stage is the suffix after the prefix only when the prefix
does not occur again inside that suffix (in general it is the segment up
to the next occurrence, Python `k.split(prefix)[1]`). -/
theorem c7_pivot_stage_rows (record : PyDict) (idv : Val)
    (hid : lookupVal (dropNulls record) (toL "id") = some idv)
    (hno : ∀ kv ∈ dropNulls record,
      STAGE_PROPERTY_PREFIX.isPrefixOf kv.1 →
      noOccur STAGE_PROPERTY_PREFIX
        (kv.1.drop STAGE_PROPERTY_PREFIX.length)) :
    pivot_stages_properties [record] STAGE_PROPERTY_PREFIX (toL "id") =
      ((dropNulls record).filter (fun kv =>
          kv.1 ≠ toL "id" ∧ STAGE_PROPERTY_PREFIX.isPrefixOf kv.1)).map
        (fun kv => [(toL "id", idv), (STAGE_PROPERTY_PREFIX, kv.2),
          (toL "stage",
            Val.vStr (kv.1.drop STAGE_PROPERTY_PREFIX.length))]) := by
  unfold dropNulls at hid hno ⊢
  rw [pivot_singleton, pivot_record_of_id hid, filterMap_guard,
    List.filter_filter]
  have hpred : (record.filter (fun kv => kv.2 ≠ Val.vNone)).filter
      (fun kv => STAGE_PROPERTY_PREFIX.isPrefixOf kv.1 &&
        decide (kv.1 ≠ toL "id")) =
      (record.filter (fun kv => kv.2 ≠ Val.vNone)).filter
        (fun kv => decide (kv.1 ≠ toL "id" ∧
          STAGE_PROPERTY_PREFIX.isPrefixOf kv.1)) :=
    List.filter_congr (fun kv _ => by
      by_cases h1 : kv.1 = toL "id" <;>
        by_cases h2 : STAGE_PROPERTY_PREFIX.isPrefixOf kv.1 <;>
          simp [h1, h2])
  rw [hpred]
  apply List.map_congr_left
  intro kv hkv
  have hmem := List.mem_filter.mp hkv
  have hpre : STAGE_PROPERTY_PREFIX.isPrefixOf kv.1 = true :=
    (of_decide_eq_true hmem.2).2
  obtain ⟨tail, htail⟩ := List.isPrefixOf_iff_prefix.mp hpre
  have hdrop : kv.1.drop STAGE_PROPERTY_PREFIX.length = tail := by
    rw [← htail, List.drop_left]
  have hocc : noOccur STAGE_PROPERTY_PREFIX tail := by
    rw [← hdrop]
    exact hno kv hmem.1 hpre
  have hsplit : pySplit STAGE_PROPERTY_PREFIX kv.1 = [[], tail] := by
    rw [← htail]
    exact pySplit_prefix_no_occur (by decide) hocc
  rw [hsplit, hdrop]
  rfl

/-- Claim C7 witness: the spec's example record pivots to exactly one row
with stage `open`. -/
theorem c7_pivot_stage_rows_witness :
    pivot_stages_properties [rec7] STAGE_PROPERTY_PREFIX (toL "id") =
      [[(toL "id", Val.vStr (toL "1")),
        (STAGE_PROPERTY_PREFIX, Val.vStr (toL "2024-01-01")),
        (toL "stage", Val.vStr (toL "open"))]] :=
  (c7_pivot_stage_rows rec7 (Val.vStr (toL "1")) (by decide)
    (by decide)).trans (by decide)

/-- Claim C7 counterexample: a stage property whose name contains the
prefix twice pivots to a row whose stage is the empty string, not the
suffix after the prefix, as the claim as stated would require. -/
theorem c7_pivot_stage_rows_counterexample :
    pivot_stages_properties [c7bad] STAGE_PROPERTY_PREFIX (toL "id") =
        [[(toL "id", Val.vStr (toL "1")),
          (STAGE_PROPERTY_PREFIX, Val.vStr (toL "v")),
          (toL "stage", Val.vStr [])]]
      ∧ pivot_stages_properties [c7bad] STAGE_PROPERTY_PREFIX (toL "id") ≠
        [[(toL "id", Val.vStr (toL "1")),
          (STAGE_PROPERTY_PREFIX, Val.vStr (toL "v")),
          (toL "stage", Val.vStr
            ((toL "hs_date_entered_hs_date_entered_x").drop
              STAGE_PROPERTY_PREFIX.length))]] := by
  decide

/-- Claim C1 (refuting the claim on the code): on the oversized
comma-joined property string `props3` (three 1000-character names), the
first accepted chunk of the chunking loop is the raw 2000-character
window, whose final comma-token `replicate 999 'b'` is not one of the
property names — the chunk cuts the second name mid-token — and the loop
never exits for any fuel: after two iterations the accepted chunk becomes
empty and the cursor stops advancing, so no chunk sequence (in particular
none re-joining to the original) is ever produced. -/
theorem c1_chunker_cuts_names_and_diverges :
    chunkStep props3 0 =
        List.replicate 1000 'a' ++ [','] ++ List.replicate 999 'b'
      ∧ splitComma (chunkStep props3 0) =
          [List.replicate 1000 'a', List.replicate 999 'b']
      ∧ List.replicate 999 'b' ∉ splitComma props3
      ∧ ∀ fuel, chunkLoop fuel props3 0 = none := by
  have e1 := chunkStep_props3_zero
  have e1len : (chunkStep props3 0).length = 2000 := by
    rw [e1, List.length_append, List.length_append, List.length_replicate,
      List.length_replicate, List.length_singleton]
  have hsplit1 : splitComma (chunkStep props3 0) =
      [List.replicate 1000 'a', List.replicate 999 'b'] := by
    rw [e1, List.append_assoc, List.singleton_append,
      splitComma_append_comma (no_comma_replicate 1000 'a' (by decide)),
      splitComma_no_comma (no_comma_replicate 999 'b' (by decide))]
  have hnotmem : List.replicate 999 'b' ∉ splitComma props3 := by
    rw [splitComma_props3]
    intro hmem
    simp only [List.mem_cons, List.not_mem_nil, or_false] at hmem
    rcases hmem with h | h | h <;>
      · have hlen := congrArg List.length h
        rw [List.length_replicate, List.length_replicate] at hlen
        omega
  have hstuck : ∀ f, chunkLoop f props3 2001 = none :=
    chunkLoop_stuck (by rw [props3_length]; omega) chunkStep_props3_2001
  have h2000 : ∀ f, chunkLoop f props3 2000 = none := by
    intro f
    cases f with
    | zero => rfl
    | succ f' =>
      have hcond : 2000 < props3.length := by
        rw [props3_length]
        omega
      simp [chunkLoop, hcond, chunkStep_props3_2000, hstuck f']
  have h0 : ∀ fuel, chunkLoop fuel props3 0 = none := by
    intro fuel
    cases fuel with
    | zero => rfl
    | succ f =>
      have hcond : 0 < props3.length := by
        rw [props3_length]
        omega
      simp [chunkLoop, hcond, e1len, h2000 f]
  exact ⟨e1, hsplit1, hnotmem, h0⟩

/-- Claim C2 (refuting the claim on the code): for the single stage
property `hs_date_entered_appointmentscheduled` (joined length 36) the
first iteration of the chunking loop accepts the empty chunk
`",".join("hs_date_entered_appointmentscheduled".split(",")[:-1])`, the
cursor never advances, and `stages_timing` never reaches its exit
condition, whatever the fuel, the oracle and the soft-delete flag. -/
theorem c2_stages_timing_loop_diverges :
    ∀ (oracle : PyDict → List (List PyDict)) (soft_delete : Bool)
      (fuel : Nat),
      stages_timing [c2name] oracle soft_delete fuel = none := by
  intro oracle sd fuel
  have hfil : [c2name].filter
      (fun prop => STAGE_PROPERTY_PREFIX.isPrefixOf prop) = [c2name] := by
    decide
  have hstuck : ∀ f, chunkLoop f c2name 0 = none :=
    chunkLoop_stuck (by decide) (by decide)
  simp only [stages_timing, hfil]
  rw [show joinComma [c2name] = c2name from rfl, hstuck fuel]
  rfl
